import Mathlib

/-!
Verification of the sailing-scoring repository's Result Computation Engine
and its frontend helpers.

The engine (`Calculation.py`) is documented in `src/Backend/README.md`; the
definitions below embed its data model and operations (score matrix from
finishes, discard policy, TOTAL/NET aggregation, RRS A8 tie-breaking,
ranking, CSV rendering).  Frontend helpers (`parseCsv`, the finish-time
helpers, `isSailNumberInvalid`) are embedded from the TypeScript sources.
Scores are finishing positions or penalty values, always integral, so they
are modelled as `Nat`.  Text is modelled as `List Char` with `String` at
the boundaries.
-/

namespace Sailing

/-! ## Data model -/

/-- An entry: a boat registered for the event (`Entry` collection). -/
structure Entry where
  sail_number : String
deriving DecidableEq, Repr

/-- A race of the event, identified by its race id (`RaceInfo` collection,
already in start-time order). -/
structure Race where
  race_id : String
deriving DecidableEq, Repr

/-- A raw finish record (`ScoreSample` collection).  The finish timestamp is
modelled as a number (seconds); the engine only compares timestamps.
`rc_scoring` is an optional penalty code such as "OCS". -/
structure Finish where
  sail_number : String
  race_id : String
  finish_time : Nat
  rc_scoring : Option String
deriving DecidableEq, Repr

/-- A derived score cell for one (boat, race): numeric value plus an
optional display code ("DNC" or a penalty code). -/
structure ScoreCell where
  value : Nat
  code : Option String
deriving DecidableEq, Repr

/-- A score cell of a result row: value, code, and the discarded flag. -/
structure RowCell where
  value : Nat
  code : Option String
  discarded : Bool
deriving DecidableEq, Repr

/-- One row of the series result. -/
structure ResultRow where
  sail_number : String
  rank : Nat
  rank_display : String
  scores : List RowCell
  total : Nat
  net : Nat
deriving DecidableEq, Repr

/-! ## DiscardPolicy: num_discards -/

/-- Modelled from the spec: `num_discards(n_races, discard_thresholds)` of
the missing `Calculation.py`.  The threshold array gives the minimum number
of races needed for each discard: the first discard applies when the race
count reaches the first element, the second when it reaches the second
element, and so on. -/
def num_discards (n_races : Nat) : List Nat → Nat
  | [] => 0
  | t :: ts => (if t ≤ n_races then 1 else 0) + num_discards n_races ts

/-- Validity of an event's discard-threshold sequence: strictly ascending
positive race counts (each threshold is a minimum number of races, so it is
at least 1). -/
def validThresholds (ts : List Nat) : Prop :=
  List.Pairwise (· < ·) ts ∧ ∀ t ∈ ts, 1 ≤ t

instance : DecidablePred validThresholds := fun ts => by
  unfold validThresholds; infer_instance

theorem num_discards_eq_filter (n : Nat) (ts : List Nat) :
    num_discards n ts = (ts.filter (fun t => decide (t ≤ n))).length := by
  induction ts with
  | nil => rfl
  | cons t ts ih =>
    by_cases h : t ≤ n <;>
      simp [num_discards, List.filter_cons, h, ih, Nat.add_comm]

theorem num_discards_mono (ts : List Nat) {n m : Nat} (h : n ≤ m) :
    num_discards n ts ≤ num_discards m ts := by
  induction ts with
  | nil => exact Nat.le_refl _
  | cons t ts ih =>
    simp only [num_discards]
    by_cases ht : t ≤ n
    · have ht' : t ≤ m := Nat.le_trans ht h
      simp only [ht, ht', if_true]
      omega
    · by_cases ht' : t ≤ m <;> simp only [ht, ht', if_true, if_false] <;> omega

/-- Generalized bound: if the thresholds are strictly ascending and all
exceed `b`, at most `n - b` of them can be `≤ n`. -/
theorem num_discards_le_sub (n : Nat) :
    ∀ (ts : List Nat) (b : Nat), List.Pairwise (· < ·) ts →
      (∀ x ∈ ts, b < x) → num_discards n ts ≤ n - b := by
  intro ts
  induction ts with
  | nil => intro b _ _; exact Nat.zero_le _
  | cons t ts ih =>
    intro b hpw hb
    have hlt : ∀ x ∈ ts, t < x := (List.pairwise_cons.mp hpw).1
    have hpw' : List.Pairwise (· < ·) ts := (List.pairwise_cons.mp hpw).2
    have hbt : b < t := hb t (by simp)
    have hrec : num_discards n ts ≤ n - t := ih t hpw' hlt
    simp only [num_discards]
    by_cases ht : t ≤ n
    · simp only [ht, if_true]; omega
    · simp only [ht, if_false]; omega

/-- For strictly ascending positive thresholds, at most `n` thresholds can
be `≤ n`, so the discard count never exceeds the race count. -/
theorem num_discards_le (ts : List Nat) (hts : validThresholds ts) (n : Nat) :
    num_discards n ts ≤ n := by
  obtain ⟨hpw, hpos⟩ := hts
  have h := num_discards_le_sub n ts 0 hpw (fun x hx => hpos x hx)
  simpa using h

/-! ## ScoreAggregator: total_and_net -/

/-- Discard priority on (race index, score) pairs: `a` comes before `b`
when `a` is to be discarded first, i.e. `a` has the higher score, or an
equal score in a later race. -/
def worseR (a b : Nat × Nat) : Prop :=
  b.2 < a.2 ∨ (a.2 = b.2 ∧ b.1 ≤ a.1)

instance : DecidableRel worseR := fun a b => by unfold worseR; infer_instance

instance : IsTotal (Nat × Nat) worseR := by
  constructor
  intro a b
  rcases Nat.lt_trichotomy a.2 b.2 with h | h | h
  · exact Or.inr (Or.inl h)
  · rcases Nat.le_total a.1 b.1 with h' | h'
    · exact Or.inr (Or.inr ⟨h.symm, h'⟩)
    · exact Or.inl (Or.inr ⟨h, h'⟩)
  · exact Or.inl (Or.inl h)

instance : IsTrans (Nat × Nat) worseR := by
  constructor
  intro a b c hab hbc
  rcases hab with h1 | ⟨h1, h1'⟩ <;> rcases hbc with h2 | ⟨h2, h2'⟩
  · exact Or.inl (Nat.lt_trans h2 h1)
  · exact Or.inl (h2 ▸ h1)
  · exact Or.inl (h1 ▸ h2)
  · exact Or.inr ⟨h1.trans h2, Nat.le_trans h2' h1'⟩

/-- Modelled from the spec: the discard selection of `total_and_net` in the
missing `Calculation.py`.  The boat's scores are enumerated with their race
indices and ordered worst first; on equal scores the later race comes
first. -/
def worstOrder (scores : List Nat) : List (Nat × Nat) :=
  List.insertionSort worseR scores.enum

/-- Race indices of the `d` scores selected for discarding. -/
def discardedIdx (scores : List Nat) (d : Nat) : List Nat :=
  ((worstOrder scores).take d).map Prod.fst

/-- Modelled from the spec: `total_and_net(race_scores, num_discards)` of
the missing `Calculation.py`.  TOTAL is the sum of all scores; the `d`
worst scores (later race first on ties) are discarded; NET is TOTAL minus
the discarded sum.  Returns (total, net, is_discarded flags). -/
def total_and_net (scores : List Nat) (d : Nat) : Nat × Nat × List Bool :=
  let total := scores.sum
  let discardSum := (((worstOrder scores).take d).map Prod.snd).sum
  let flags := scores.enum.map (fun p => decide (p.1 ∈ discardedIdx scores d))
  (total, total - discardSum, flags)

/-- Sum of the scores whose flag is set, reading the flags in parallel with
the scores; this is the spec's "sum of discarded scores". -/
def flaggedSum (scores : List Nat) (flags : List Bool) : Nat :=
  (((scores.zip flags).filter (fun p => p.2)).map Prod.fst).sum

theorem worstOrder_perm (s : List Nat) : List.Perm (worstOrder s) s.enum :=
  List.perm_insertionSort worseR s.enum

theorem nodup_fst_worstOrder (s : List Nat) :
    ((worstOrder s).map Prod.fst).Nodup := by
  have hp : List.Perm ((worstOrder s).map Prod.fst) (s.enum.map Prod.fst) :=
    (worstOrder_perm s).map Prod.fst
  rw [List.enum_map_fst] at hp
  exact hp.nodup_iff.mpr (List.nodup_range _)

theorem filter_worst_eq_take (s : List Nat) (d : Nat) :
    (worstOrder s).filter (fun p => decide (p.1 ∈ discardedIdx s d)) =
      (worstOrder s).take d := by
  have hnd := nodup_fst_worstOrder s
  conv_lhs => rw [← (worstOrder s).take_append_drop d]
  conv at hnd => rw [← (worstOrder s).take_append_drop d]
  rw [List.map_append, List.nodup_append] at hnd
  rw [List.filter_append]
  have h1 : ((worstOrder s).take d).filter
      (fun p => decide (p.1 ∈ discardedIdx s d)) = (worstOrder s).take d := by
    apply List.filter_eq_self.mpr
    intro p hp
    exact decide_eq_true (List.mem_map_of_mem Prod.fst hp)
  have h2 : ((worstOrder s).drop d).filter
      (fun p => decide (p.1 ∈ discardedIdx s d)) = [] := by
    apply List.filter_eq_nil_iff.mpr
    intro p hp
    simp only [decide_eq_true_eq]
    intro hmem
    exact hnd.2.2 hmem (List.mem_map_of_mem Prod.fst hp)
  rw [h1, h2, List.append_nil]

theorem enum_filter_perm_take (s : List Nat) (d : Nat) :
    List.Perm (s.enum.filter (fun p => decide (p.1 ∈ discardedIdx s d)))
      ((worstOrder s).take d) := by
  have h := (worstOrder_perm s).symm.filter
    (fun p => decide (p.1 ∈ discardedIdx s d))
  rwa [filter_worst_eq_take] at h

theorem count_discard_flags (s : List Nat) (d : Nat) :
    (total_and_net s d).2.2.countP (fun b => b) = min d s.length := by
  show (s.enum.map (fun p => decide (p.1 ∈ discardedIdx s d))).countP
    (fun b => b) = min d s.length
  rw [List.countP_map]
  show s.enum.countP (fun p => decide (p.1 ∈ discardedIdx s d)) = min d s.length
  rw [List.countP_eq_length_filter, (enum_filter_perm_take s d).length_eq,
    List.length_take, (worstOrder_perm s).length_eq, List.enum_length]

theorem zip_enumFrom_map {α β : Type} (f : Nat × α → β) :
    ∀ (l : List α) (n : Nat),
      l.zip ((l.enumFrom n).map f) = (l.enumFrom n).map (fun p => (p.2, f p))
  | [], _ => rfl
  | x :: xs, n => by
    simp only [List.enumFrom, List.map_cons, List.zip_cons_cons]
    rw [zip_enumFrom_map f xs (n + 1)]

theorem flaggedSum_eq_discardSum (s : List Nat) (d : Nat) :
    flaggedSum s (total_and_net s d).2.2 =
      (((worstOrder s).take d).map Prod.snd).sum := by
  show ((((s.zip ((s.enumFrom 0).map
      (fun p => decide (p.1 ∈ discardedIdx s d)))).filter
      (fun p => p.2)).map Prod.fst)).sum = _
  rw [zip_enumFrom_map (fun p => decide (p.1 ∈ discardedIdx s d)) s 0]
  rw [List.filter_map, List.map_map]
  have hperm := (enum_filter_perm_take s d).map Prod.snd
  exact hperm.sum_eq

theorem discardSum_le_total (s : List Nat) (d : Nat) :
    (((worstOrder s).take d).map Prod.snd).sum ≤ s.sum := by
  have h1 : ((worstOrder s).map Prod.snd).sum = s.sum := by
    have h := (worstOrder_perm s).map Prod.snd
    rw [List.enum_map_snd] at h
    exact h.sum_eq
  rw [← h1, List.map_take]
  conv_rhs => rw [← ((worstOrder s).map Prod.snd).take_append_drop d]
  rw [List.sum_append]
  exact Nat.le_add_right _ _

/-- The discarded index set is upward closed for the discard priority:
if race `i` is discarded and race `j` has the same score but a higher
index (or a worse score), then `j` is discarded too. -/
theorem discard_upclosed (s : List Nat) (d : Nat) {i j : Nat}
    (hj : j < s.length) (hij : i < j) (heq : s.getD i 0 = s.getD j 0)
    (hi : i ∈ discardedIdx s d) : j ∈ discardedIdx s d := by
  obtain ⟨p, hp_take, hp_fst⟩ := List.mem_map.mp hi
  have hp_worst : p ∈ worstOrder s := List.mem_of_mem_take hp_take
  have hp_enum : p ∈ s.enum := (worstOrder_perm s).mem_iff.mp hp_worst
  have hp_get : s[p.1]? = some p.2 := List.mem_enum_iff_getElem?.mp hp_enum
  rw [hp_fst] at hp_get
  have hp2 : p.2 = s.getD i 0 := by
    rw [List.getD_eq_getElem?_getD, hp_get]; rfl
  have hq_enum : (j, s[j]) ∈ s.enum := by
    have hj' : j < s.enum.length := by rw [List.enum_length]; exact hj
    have hg := List.getElem_enum s j hj'
    have hm : s.enum[j] ∈ s.enum := List.getElem_mem hj'
    rwa [hg] at hm
  have hq2 : s[j] = s.getD j 0 := by
    rw [List.getD_eq_getElem?_getD, List.getElem?_eq_getElem hj]; rfl
  have hq_worst : (j, s[j]) ∈ worstOrder s :=
    (worstOrder_perm s).mem_iff.mpr hq_enum
  rw [← (worstOrder s).take_append_drop d, List.mem_append] at hq_worst
  rcases hq_worst with htake | hdrop
  · exact List.mem_map.mpr ⟨(j, s[j]), htake, rfl⟩
  · exfalso
    have hsorted : List.Pairwise worseR (worstOrder s) :=
      List.sorted_insertionSort worseR s.enum
    rw [← (worstOrder s).take_append_drop d] at hsorted
    have hrel : worseR p (j, s[j]) :=
      (List.pairwise_append.mp hsorted).2.2 p hp_take (j, s[j]) hdrop
    rcases hrel with hlt | ⟨_, hle⟩
    · rw [hp2, heq, ← hq2] at hlt
      exact Nat.lt_irrefl _ hlt
    · have : p.1 = i := hp_fst
      simp only [this] at hle
      omega

/-! ## TiebreakComparator: RRS A8 keys -/

/-- Modelled from the spec: the A8.1 component of `_a8_compare_key` in the
missing `Calculation.py` — the boat's non-discarded scores listed best to
worst (ascending). -/
def a81key (scores : List Nat) (flags : List Bool) : List Nat :=
  List.insertionSort (· ≤ ·)
    (((scores.zip flags).filter (fun p => !p.2)).map Prod.fst)

/-- Modelled from the spec: the A8.2 component of `_a8_compare_key` in the
missing `Calculation.py` — all scores, last race first. -/
def a82key (scores : List Nat) : List Nat :=
  scores.reverse

/-- The combined series sort key (NET, A8.1 tuple, A8.2 tuple), compared
lexicographically exactly as Python compares the key tuples: first
component first, list components lexicographically with a strict prefix
comparing as smaller. -/
def seriesKey (net : Nat) (scores : List Nat) (flags : List Bool) :
    Nat ×ₗ (List Nat ×ₗ List Nat) :=
  toLex (net, toLex (a81key scores flags, a82key scores))

/-- The combined key of a result row, recomputed from its stored cells. -/
def rowKey (r : ResultRow) : Nat ×ₗ (List Nat ×ₗ List Nat) :=
  seriesKey r.net (r.scores.map RowCell.value) (r.scores.map RowCell.discarded)

/-- The sort relation on rows: combined keys ascending. -/
def rowLE (r₁ r₂ : ResultRow) : Prop :=
  rowKey r₁ ≤ rowKey r₂

instance : DecidableRel rowLE := fun a b => by unfold rowLE; infer_instance

instance : IsTotal ResultRow rowLE :=
  ⟨fun a b => le_total (rowKey a) (rowKey b)⟩

instance : IsTrans ResultRow rowLE :=
  ⟨fun _ _ _ hab hbc => le_trans hab hbc⟩

/-! ## SeriesRanker -/

/-- Modelled from the spec: English ordinal suffix with the 11th/12th/13th
exception. -/
def ordinalSuffix (n : Nat) : String :=
  if n % 100 = 11 ∨ n % 100 = 12 ∨ n % 100 = 13 then "th"
  else if n % 10 = 1 then "st"
  else if n % 10 = 2 then "nd"
  else if n % 10 = 3 then "rd"
  else "th"

/-- Modelled from the spec: the rank display string (1st, 2nd, 3rd, …). -/
def ordinalDisplay (n : Nat) : String :=
  Nat.repr n ++ ordinalSuffix n

/-- The unranked result row of one boat: aggregates TOTAL/NET and attaches
the discard flags to the boat's score cells. -/
def preRow (d : Nat) (b : String × List ScoreCell) : ResultRow :=
  let scores := b.2.map ScoreCell.value
  let tn := total_and_net scores d
  { sail_number := b.1
    rank := 0
    rank_display := ""
    scores := (b.2.zip tn.2.2).map (fun p => ⟨p.1.value, p.1.code, p.2⟩)
    total := tn.1
    net := tn.2.1 }

/-- Assign a rank and its display string to a row. -/
def setRank (k : Nat) (r : ResultRow) : ResultRow :=
  { r with rank := k, rank_display := ordinalDisplay k }

/-- Modelled from the spec: the sorting/ranking stage of
`build_series_result` in the missing `Calculation.py` — sort boats by
(NET, A8 key) and assign ranks 1, 2, 3, … in sorted order. -/
def rankBoats (boats : List (String × List ScoreCell)) (d : Nat) :
    List ResultRow :=
  (List.insertionSort rowLE (boats.map (preRow d))).enum.map
    (fun p => setRank (p.1 + 1) p.2)

/-! ## PositionResolver and the full pipeline -/

/-- Order on finishes by finish timestamp (ascending). -/
def timeLE (f g : Finish) : Prop :=
  f.finish_time ≤ g.finish_time

instance : DecidableRel timeLE := fun a b => by unfold timeLE; infer_instance

/-- Modelled from the spec: `positions_from_finishes` of the missing
`Calculation.py`, restricted to one race — non-penalty finishes of the
race sorted by finish time and assigned positions 1, 2, 3, …. -/
def racePositions (finishes : List Finish) (rid : String) :
    List (String × Nat) :=
  (List.insertionSort timeLE
    (finishes.filter (fun f => f.race_id == rid && f.rc_scoring.isNone))).enum.map
    (fun p => (p.2.sail_number, p.1 + 1))

/-- Modelled from the spec: the score cell of one (boat, race) pair.  A
missing finish is DNC with penalty value `n_boats + 1`; a finish with a
penalty code gets the same value with the code; otherwise the boat gets
its 1-based position in finish-time order. -/
def cellFor (finishes : List Finish) (nBoats : Nat) (sail rid : String) :
    ScoreCell :=
  match finishes.find? (fun f => f.sail_number == sail && f.race_id == rid) with
  | none => ⟨nBoats + 1, some "DNC"⟩
  | some f =>
    match f.rc_scoring with
    | some c => ⟨nBoats + 1, some c⟩
    | none =>
      match (racePositions finishes rid).find? (fun p => p.1 == sail) with
      | some p => ⟨p.2, none⟩
      | none => ⟨nBoats + 1, some "DNC"⟩

/-- Modelled from the spec: `build_series_result` of the missing
`Calculation.py` — build the score matrix for every entry, apply the
discard rule and TOTAL/NET, sort by (NET, A8 key) and assign ranks. -/
def build_series_result (entries : List Entry) (races : List Race)
    (finishes : List Finish) (thresholds : List Nat) : List ResultRow :=
  rankBoats
    (entries.map (fun e => (e.sail_number,
      races.map (fun r => cellFor finishes entries.length e.sail_number r.race_id))))
    (num_discards races.length thresholds)

/-! ## Structural lemmas about the ranking stage -/

theorem exists_mem_map_enumFrom {α β : Type} (f : Nat × α → β) :
    ∀ (l : List α) (n : Nat) (r : α), r ∈ l →
      ∃ i, f (i, r) ∈ (l.enumFrom n).map f
  | [], _, r, h => absurd h (List.not_mem_nil r)
  | x :: xs, n, r, h => by
    rcases List.mem_cons.mp h with rfl | h'
    · exact ⟨n, List.mem_cons_self _ _⟩
    · obtain ⟨i, hi⟩ := exists_mem_map_enumFrom f xs (n + 1) r h'
      exact ⟨i, List.mem_cons_of_mem _ hi⟩

theorem rankBoats_mem_of (boats : List (String × List ScoreCell)) (d : Nat)
    {b : String × List ScoreCell} (hb : b ∈ boats) :
    ∃ k, setRank k (preRow d b) ∈ rankBoats boats d := by
  have h1 : preRow d b ∈ boats.map (preRow d) := List.mem_map_of_mem _ hb
  have h2 : preRow d b ∈ List.insertionSort rowLE (boats.map (preRow d)) :=
    (List.perm_insertionSort rowLE _).mem_iff.mpr h1
  obtain ⟨i, hi⟩ := exists_mem_map_enumFrom
    (fun p => setRank (p.1 + 1) p.2) _ 0 _ h2
  exact ⟨i + 1, hi⟩

theorem mem_rankBoats (boats : List (String × List ScoreCell)) (d : Nat)
    {r : ResultRow} (hr : r ∈ rankBoats boats d) :
    ∃ k b, b ∈ boats ∧ r = setRank k (preRow d b) := by
  obtain ⟨p, hp, hps⟩ := List.mem_map.mp hr
  have hsnd : p.2 ∈ List.insertionSort rowLE (boats.map (preRow d)) := by
    have h := List.mem_map_of_mem Prod.snd hp
    rwa [List.enum_map_snd] at h
  have hmem : p.2 ∈ boats.map (preRow d) :=
    (List.perm_insertionSort rowLE _).mem_iff.mp hsnd
  obtain ⟨b, hb, hpre⟩ := List.mem_map.mp hmem
  exact ⟨p.1 + 1, b, hb, by rw [← hps, ← hpre]⟩

theorem rankBoats_map_sail (boats : List (String × List ScoreCell)) (d : Nat) :
    List.Perm ((rankBoats boats d).map ResultRow.sail_number)
      (boats.map Prod.fst) := by
  have h1 : (rankBoats boats d).map ResultRow.sail_number =
      (List.insertionSort rowLE (boats.map (preRow d))).map
        ResultRow.sail_number := by
    unfold rankBoats
    rw [List.map_map]
    have hc : (ResultRow.sail_number ∘
        fun p : Nat × ResultRow => setRank (p.1 + 1) p.2) =
        (ResultRow.sail_number ∘ Prod.snd) := rfl
    rw [hc, ← List.map_map, List.enum_map_snd]
  rw [h1]
  have h2 := (List.perm_insertionSort rowLE
    (boats.map (preRow d))).map ResultRow.sail_number
  rw [List.map_map] at h2
  have hc2 : (ResultRow.sail_number ∘ preRow d) =
      (Prod.fst : String × List ScoreCell → String) := rfl
  rwa [hc2] at h2

theorem rankBoats_ranks (boats : List (String × List ScoreCell)) (d : Nat) :
    (rankBoats boats d).map ResultRow.rank = List.range' 1 boats.length := by
  unfold rankBoats
  rw [List.map_map]
  have hc : (ResultRow.rank ∘ fun p : Nat × ResultRow => setRank (p.1 + 1) p.2) =
      ((fun i => i + 1) ∘ (Prod.fst : Nat × ResultRow → Nat)) := rfl
  rw [hc, ← List.map_map, List.enum_map_fst]
  have hlen : (List.insertionSort rowLE (boats.map (preRow d))).length =
      boats.length := by
    rw [(List.perm_insertionSort rowLE _).length_eq, List.length_map]
  rw [hlen, List.range'_eq_map_range]
  have hfun : (fun i => i + 1) = (fun i => 1 + i) :=
    funext fun i => Nat.add_comm i 1
  rw [hfun]

theorem rankBoats_sorted_keys (boats : List (String × List ScoreCell))
    (d : Nat) :
    (rankBoats boats d).Pairwise (fun r₁ r₂ => rowKey r₁ ≤ rowKey r₂) := by
  unfold rankBoats
  rw [List.pairwise_map]
  have hs : List.Pairwise rowLE
      (List.insertionSort rowLE (boats.map (preRow d))) :=
    List.sorted_insertionSort rowLE _
  rw [← List.enum_map_snd (List.insertionSort rowLE (boats.map (preRow d))),
    List.pairwise_map] at hs
  exact hs.imp (fun h => h)

/-! ## Text utilities shared by the frontend helpers (modelled on the JS
string primitives the sources use) -/

/-- Whitespace test used by the frontend string helpers; the data here is
ASCII, for which this matches the JS \s class and String.trim. -/
def isJsSpace (c : Char) : Bool :=
  c == ' ' || c == '\t' || c == '\n' || c == '\r'

/-- JS String.prototype.trim on a character list. -/
def trimChars (l : List Char) : List Char :=
  ((l.dropWhile isJsSpace).reverse.dropWhile isJsSpace).reverse

/-- JS String.prototype.split with a single-character separator. -/
def splitOnChar (c : Char) : List Char → List (List Char)
  | [] => [[]]
  | x :: xs =>
    match splitOnChar c xs with
    | [] => [[]]
    | y :: ys => if x = c then [] :: y :: ys else (x :: y) :: ys

/-- Join pieces with a single-character separator (inverse of the above
when no piece contains the separator). -/
def joinWith (c : Char) : List (List Char) → List Char
  | [] => []
  | [f] => f
  | f :: fs => f ++ c :: joinWith c fs

/-- Remove one trailing carriage return, so that splitting on a newline
followed by this models the JS regex split on an optional CR plus LF. -/
def dropTrailingCR (l : List Char) : List Char :=
  match l.reverse with
  | [] => l
  | c :: rest => if c = '\r' then rest.reverse else l

theorem splitOnChar_ne_nil (c : Char) : ∀ l : List Char, splitOnChar c l ≠ []
  | [] => by simp [splitOnChar]
  | x :: xs => by
    cases h : splitOnChar c xs with
    | nil => exact absurd h (splitOnChar_ne_nil c xs)
    | cons y ys =>
      simp only [splitOnChar, h]
      split <;> simp

theorem splitOnChar_eq_single {c : Char} :
    ∀ {l : List Char}, (∀ x ∈ l, x ≠ c) → splitOnChar c l = [l]
  | [], _ => rfl
  | x :: xs, h => by
    have hxs := splitOnChar_eq_single
      (fun y hy => h y (List.mem_cons_of_mem _ hy))
    have hx : ¬(x = c) := h x (List.mem_cons_self _ _)
    simp [splitOnChar, hxs, hx]

theorem splitOnChar_append (c : Char) :
    ∀ (f t : List Char), (∀ x ∈ f, x ≠ c) →
      splitOnChar c (f ++ c :: t) = f :: splitOnChar c t
  | [], t, _ => by
    cases h : splitOnChar c t with
    | nil => exact absurd h (splitOnChar_ne_nil c t)
    | cons y ys => simp [splitOnChar, h]
  | x :: xs, t, hf => by
    have hrec := splitOnChar_append c xs t
      (fun y hy => hf y (List.mem_cons_of_mem _ hy))
    have hx : ¬(x = c) := hf x (List.mem_cons_self _ _)
    simp [splitOnChar, hrec, hx]

theorem splitOnChar_joinWith (c : Char) :
    ∀ (fs : List (List Char)), fs ≠ [] → (∀ f ∈ fs, ∀ x ∈ f, x ≠ c) →
      splitOnChar c (joinWith c fs) = fs
  | [], h, _ => absurd rfl h
  | [f], _, hf => splitOnChar_eq_single (hf f (by simp))
  | f :: g :: fs, _, hf => by
    have h1 := splitOnChar_append c f (joinWith c (g :: fs)) (hf f (by simp))
    have h2 := splitOnChar_joinWith c (g :: fs) (by simp)
      (fun f' hf' => hf f' (List.mem_cons_of_mem _ hf'))
    show splitOnChar c (f ++ c :: joinWith c (g :: fs)) = f :: g :: fs
    rw [h1, h2]

theorem mem_joinWith (c : Char) :
    ∀ (fs : List (List Char)) (x : Char), x ∈ joinWith c fs →
      x = c ∨ ∃ f ∈ fs, x ∈ f
  | [], x, h => absurd h (List.not_mem_nil x)
  | [f], x, h => Or.inr ⟨f, by simp, h⟩
  | f :: g :: fs, x, h => by
    rw [show joinWith c (f :: g :: fs) = f ++ c :: joinWith c (g :: fs) from rfl,
      List.mem_append] at h
    rcases h with h | h
    · exact Or.inr ⟨f, by simp, h⟩
    · rcases List.mem_cons.mp h with rfl | h'
      · exact Or.inl rfl
      · rcases mem_joinWith c (g :: fs) x h' with hc | ⟨f', hf', hx⟩
        · exact Or.inl hc
        · exact Or.inr ⟨f', List.mem_cons_of_mem _ hf', hx⟩

theorem joinWith_ne_nil (c : Char) :
    ∀ (f : List Char) (fs : List (List Char)), f ≠ [] →
      joinWith c (f :: fs) ≠ []
  | f, [], hf => hf
  | f, g :: fs, _ => by
    show f ++ c :: joinWith c (g :: fs) ≠ []
    simp

theorem dropWhile_of_head (p : Char → Bool) (l : List Char)
    (h : ∀ d, l.head? = some d → p d = false) : l.dropWhile p = l := by
  cases l with
  | nil => rfl
  | cons x xs =>
    rw [List.dropWhile_cons]
    simp [h x rfl]

theorem trimChars_of_ends (l : List Char)
    (h1 : ∀ d, l.head? = some d → isJsSpace d = false)
    (h2 : ∀ d, l.reverse.head? = some d → isJsSpace d = false) :
    trimChars l = l := by
  unfold trimChars
  rw [dropWhile_of_head _ l h1, dropWhile_of_head _ l.reverse h2,
    List.reverse_reverse]

theorem trimChars_of_all {l : List Char}
    (h : ∀ x ∈ l, isJsSpace x = false) : trimChars l = l := by
  apply trimChars_of_ends
  · intro d hd
    exact h d (List.mem_of_mem_head? hd)
  · intro d hd
    exact h d (List.mem_reverse.mp (List.mem_of_mem_head? hd))

/-! ## ResultFormatter: CSV rendering (engine side) and the frontend
parseCsv -/

/-- The frontend CSV parser (`parseCsv` of `lib/csv`): trim the whole
text, split into lines on an optional CR plus LF, trim each line, drop
empty lines, then split each line on commas and trim each cell.  Note it
performs no quote handling. -/
def parseCsv (csv : String) : List (List String) :=
  ((((splitOnChar '\n' (trimChars csv.data)).map dropTrailingCR).map
      trimChars).filter (fun l => !l.isEmpty)).map
    (fun line => (splitOnChar ',' line).map (fun cs => String.mk (trimChars cs)))

/-- A CSV field must be quoted when it contains the delimiter, the quote
character, or a line break (Python csv QUOTE_MINIMAL). -/
def needsQuote (f : List Char) : Bool :=
  f.any (fun c => c == ',' || c == '"' || c == '\r' || c == '\n')

/-- Double every quote character (Python csv escaping). -/
def escapeQuotes : List Char → List Char
  | [] => []
  | c :: cs => if c = '"' then '"' :: '"' :: escapeQuotes cs else c :: escapeQuotes cs

/-- Modelled from the spec: field escaping of `write_result_csv` /
`to_csv_string` in the missing `Calculation.py`, which use the Python csv
module: a field with a delimiter, quote or line break is wrapped in quotes
with inner quotes doubled. -/
def renderField (f : List Char) : List Char :=
  if needsQuote f then '"' :: (escapeQuotes f ++ ['"']) else f

/-- One CSV line: fields escaped and joined with commas. -/
def renderLine (fields : List String) : List Char :=
  joinWith ',' (fields.map (fun s => renderField s.data))

/-- Render a numeric score the way Python prints its floats (all scores
are integral, e.g. 9.0). -/
def renderValue (v : Nat) : String :=
  Nat.repr v ++ ".0"

/-- Modelled from the spec: one race cell of the CSV — the numeric score,
any code (penalty or DNC) appended after it, parenthesized if
discarded. -/
def renderCell (cell : RowCell) : String :=
  let base := renderValue cell.value ++
    (match cell.code with
      | some c => " " ++ c
      | none => "")
  if cell.discarded then "(" ++ base ++ ")" else base

/-- The fields of one result row, in CSV column order. -/
def rowFields (row : ResultRow) : List String :=
  row.rank_display :: row.sail_number ::
    (row.scores.map renderCell ++ [renderValue row.total, renderValue row.net])

/-- The CSV header fields. -/
def headerFields (raceIds : List String) : List String :=
  "RANK" :: "Sail Number" :: (raceIds ++ ["TOTAL", "NET"])

/-- Modelled from the spec: `to_csv_string(rows, race_ids)` of the missing
`Calculation.py` — header line plus one line per row, each line terminated
with CR LF as the Python csv writer does. -/
def to_csv_string (rows : List ResultRow) (raceIds : List String) : String :=
  String.mk (List.flatten
    (((headerFields raceIds :: rows.map rowFields).map renderLine).map
      (fun l => l ++ ['\r', '\n'])))

/-- A field value that CSV transports verbatim: nonempty, free of
delimiter/quote/line-break characters, and without leading or trailing
whitespace (the frontend parser trims every cell). -/
def cleanField (s : String) : Prop :=
  s.data ≠ [] ∧
    (∀ x ∈ s.data, x ≠ ',' ∧ x ≠ '"' ∧ x ≠ '\r' ∧ x ≠ '\n') ∧
    (∀ d, s.data.head? = some d → isJsSpace d = false) ∧
    (∀ d, s.data.reverse.head? = some d → isJsSpace d = false)

instance : DecidablePred cleanField := fun s => by
  unfold cleanField; infer_instance

/-! ## Round-trip lemmas: parseCsv after to_csv_string -/

/-- The exported text without its final CR LF: lines joined by CR LF. -/
def crlfIntercalate : List (List Char) → List Char
  | [] => []
  | [l] => l
  | l :: ls => l ++ '\r' :: '\n' :: crlfIntercalate ls

/-- The pieces produced by splitting the export on LF: every line but the
last keeps a trailing CR. -/
def markCR : List (List Char) → List (List Char)
  | [] => []
  | [l] => [l]
  | l :: ls => (l ++ ['\r']) :: markCR ls

theorem flatten_crlf_eq :
    ∀ (ls : List (List Char)), ls ≠ [] →
      List.flatten (ls.map (fun l => l ++ ['\r', '\n'])) =
        crlfIntercalate ls ++ ['\r', '\n']
  | [], h => absurd rfl h
  | [l], _ => by simp [crlfIntercalate]
  | l :: g :: ls, _ => by
    have ih := flatten_crlf_eq (g :: ls) (by simp)
    show (l ++ ['\r', '\n']) ++
        List.flatten ((g :: ls).map (fun l => l ++ ['\r', '\n'])) =
      (l ++ '\r' :: '\n' :: crlfIntercalate (g :: ls)) ++ ['\r', '\n']
    rw [ih]
    simp

theorem crlfIntercalate_ne_nil :
    ∀ (l : List Char) (ls : List (List Char)), l ≠ [] →
      crlfIntercalate (l :: ls) ≠ []
  | l, [], hl => hl
  | l, g :: ls, _ => by
    show l ++ '\r' :: '\n' :: crlfIntercalate (g :: ls) ≠ []
    simp

theorem head?_crlfIntercalate :
    ∀ (l : List Char) (ls : List (List Char)), l ≠ [] →
      (crlfIntercalate (l :: ls)).head? = l.head?
  | _, [], _ => rfl
  | l, g :: ls, hl => by
    show (l ++ '\r' :: '\n' :: crlfIntercalate (g :: ls)).head? = l.head?
    rw [List.head?_append]
    cases l with
    | nil => exact absurd rfl hl
    | cons x xs => rfl

theorem reverse_head?_crlfIntercalate :
    ∀ (ls : List (List Char)), ls ≠ [] → (∀ l ∈ ls, l ≠ []) →
      ∃ l ∈ ls, (crlfIntercalate ls).reverse.head? = l.reverse.head?
  | [], h, _ => absurd rfl h
  | [l], _, _ => ⟨l, by simp, rfl⟩
  | l :: g :: ls, _, hne => by
    obtain ⟨l', hl', he⟩ := reverse_head?_crlfIntercalate (g :: ls) (by simp)
      (fun x hx => hne x (List.mem_cons_of_mem _ hx))
    refine ⟨l', List.mem_cons_of_mem _ hl', ?_⟩
    show (l ++ '\r' :: '\n' :: crlfIntercalate (g :: ls)).reverse.head? = _
    rw [List.reverse_append, List.head?_append]
    have hJ : crlfIntercalate (g :: ls) ≠ [] :=
      crlfIntercalate_ne_nil g ls (hne g (by simp))
    have hJr : (crlfIntercalate (g :: ls)).reverse ≠ [] := by
      simpa using hJ
    cases hrev : (crlfIntercalate (g :: ls)).reverse with
    | nil => exact absurd hrev hJr
    | cons y ys =>
      show (('\r' :: '\n' :: crlfIntercalate (g :: ls)).reverse).head?.or _ = _
      rw [show ('\r' :: '\n' :: crlfIntercalate (g :: ls)).reverse =
        (crlfIntercalate (g :: ls)).reverse ++ ['\n', '\r'] from by simp,
        List.head?_append, hrev]
      rw [← he, hrev]
      rfl

theorem trim_body_crlf (B : List Char) (hB : B ≠ [])
    (h1 : ∀ d, B.head? = some d → isJsSpace d = false)
    (h2 : ∀ d, B.reverse.head? = some d → isJsSpace d = false) :
    trimChars (B ++ ['\r', '\n']) = B := by
  unfold trimChars
  have hd : (B ++ ['\r', '\n']).dropWhile isJsSpace = B ++ ['\r', '\n'] := by
    apply dropWhile_of_head
    intro d hdd
    apply h1
    rw [List.head?_append] at hdd
    cases B with
    | nil => exact absurd rfl hB
    | cons x xs => exact hdd
  rw [hd]
  have hrev : (B ++ ['\r', '\n']).reverse = '\n' :: '\r' :: B.reverse := by
    simp
  rw [hrev, List.dropWhile_cons, List.dropWhile_cons]
  have hn : isJsSpace '\n' = true := by decide
  have hr : isJsSpace '\r' = true := by decide
  rw [hn, if_pos rfl, hr, if_pos rfl, dropWhile_of_head _ B.reverse h2,
    List.reverse_reverse]

theorem split_crlfIntercalate :
    ∀ (ls : List (List Char)), ls ≠ [] →
      (∀ l ∈ ls, ∀ x ∈ l, x ≠ '\n') →
      splitOnChar '\n' (crlfIntercalate ls) = markCR ls
  | [], h, _ => absurd rfl h
  | [l], _, hl => by
    show splitOnChar '\n' l = [l]
    exact splitOnChar_eq_single (hl l (by simp))
  | l :: g :: ls, _, hl => by
    have ih := split_crlfIntercalate (g :: ls) (by simp)
      (fun l' h' => hl l' (List.mem_cons_of_mem _ h'))
    show splitOnChar '\n' (l ++ '\r' :: '\n' :: crlfIntercalate (g :: ls)) =
      (l ++ ['\r']) :: markCR (g :: ls)
    have hform : l ++ '\r' :: '\n' :: crlfIntercalate (g :: ls) =
        (l ++ ['\r']) ++ '\n' :: crlfIntercalate (g :: ls) := by simp
    rw [hform, splitOnChar_append '\n' (l ++ ['\r']) _ ?hne, ih]
    case hne =>
      intro x hx
      rcases List.mem_append.mp hx with h | h
      · exact hl l (by simp) x h
      · rw [List.mem_singleton.mp h]
        decide

theorem dropTrailingCR_of_no_cr (l : List Char)
    (h : ∀ x ∈ l, x ≠ '\r') : dropTrailingCR l = l := by
  unfold dropTrailingCR
  cases hr : l.reverse with
  | nil => rfl
  | cons y ys =>
    have hy : y ≠ '\r' := by
      apply h
      rw [← List.mem_reverse, hr]
      exact List.mem_cons_self _ _
    simp [hy]

theorem dropTrailingCR_append_cr (l : List Char) :
    dropTrailingCR (l ++ ['\r']) = l := by
  unfold dropTrailingCR
  have h : (l ++ ['\r']).reverse = '\r' :: l.reverse := by simp
  rw [h]
  simp

theorem map_dropCR_markCR :
    ∀ (ls : List (List Char)), (∀ l ∈ ls, ∀ x ∈ l, x ≠ '\r') →
      (markCR ls).map dropTrailingCR = ls
  | [], _ => rfl
  | [l], hl => by
    show [dropTrailingCR l] = [l]
    rw [dropTrailingCR_of_no_cr l (hl l (by simp))]
  | l :: g :: ls, hl => by
    have ih := map_dropCR_markCR (g :: ls)
      (fun l' h' => hl l' (List.mem_cons_of_mem _ h'))
    show dropTrailingCR (l ++ ['\r']) :: (markCR (g :: ls)).map dropTrailingCR =
      l :: g :: ls
    rw [dropTrailingCR_append_cr, ih]

theorem head?_joinWith (c : Char) :
    ∀ (f : List Char) (fs : List (List Char)), f ≠ [] →
      (joinWith c (f :: fs)).head? = f.head?
  | _, [], _ => rfl
  | f, g :: fs, hf => by
    show (f ++ c :: joinWith c (g :: fs)).head? = f.head?
    rw [List.head?_append]
    cases f with
    | nil => exact absurd rfl hf
    | cons x xs => rfl

theorem reverse_head?_joinWith (c : Char) :
    ∀ (fs : List (List Char)), fs ≠ [] → (∀ f ∈ fs, f ≠ []) →
      ∃ f ∈ fs, (joinWith c fs).reverse.head? = f.reverse.head?
  | [], h, _ => absurd rfl h
  | [f], _, _ => ⟨f, by simp, rfl⟩
  | f :: g :: fs, _, hne => by
    obtain ⟨f', hf', he⟩ := reverse_head?_joinWith c (g :: fs) (by simp)
      (fun x hx => hne x (List.mem_cons_of_mem _ hx))
    refine ⟨f', List.mem_cons_of_mem _ hf', ?_⟩
    show (f ++ c :: joinWith c (g :: fs)).reverse.head? = _
    have hJ : joinWith c (g :: fs) ≠ [] :=
      joinWith_ne_nil c g fs (hne g (by simp))
    rw [show (f ++ c :: joinWith c (g :: fs)).reverse =
      (joinWith c (g :: fs)).reverse ++ (c :: f.reverse) from by simp,
      List.head?_append]
    cases hrev : (joinWith c (g :: fs)).reverse with
    | nil => exact absurd (by simpa using hrev) hJ
    | cons y ys =>
      rw [← he, hrev]
      rfl

theorem renderField_clean (f : String) (h : cleanField f) :
    renderField f.data = f.data := by
  have hq : needsQuote f.data = false := by
    apply List.any_eq_false.mpr
    intro x hx
    obtain ⟨hc1, hc2, hc3, hc4⟩ := h.2.1 x hx
    simp [hc1, hc2, hc3, hc4]
  simp [renderField, hq]

theorem renderLine_clean (fs : List String) (h : ∀ f ∈ fs, cleanField f) :
    renderLine fs = joinWith ',' (fs.map (fun s => s.data)) := by
  unfold renderLine
  congr 1
  exact List.map_congr_left (fun f hf => renderField_clean f (h f hf))

theorem line_no_crlf (fs : List String) (h : ∀ f ∈ fs, cleanField f) :
    ∀ x ∈ joinWith ',' (fs.map (fun s => s.data)), x ≠ '\n' ∧ x ≠ '\r' := by
  intro x hx
  rcases mem_joinWith ',' _ x hx with rfl | ⟨f, hf, hxf⟩
  · constructor <;> decide
  · obtain ⟨s, hs, rfl⟩ := List.mem_map.mp hf
    obtain ⟨_, _, hc3, hc4⟩ := (h s hs).2.1 x hxf
    exact ⟨hc4, hc3⟩

theorem line_head_nonspace (f : String) (fs : List String)
    (h : ∀ g ∈ f :: fs, cleanField g) :
    ∀ d, (joinWith ',' ((f :: fs).map (fun s => s.data))).head? = some d →
      isJsSpace d = false := by
  intro d hd
  have hf := h f (by simp)
  rw [show (f :: fs).map (fun s => s.data) =
      f.data :: fs.map (fun s => s.data) from rfl,
    head?_joinWith ',' f.data _ hf.1] at hd
  exact hf.2.2.1 d hd

theorem line_last_nonspace (fs : List String) (hne : fs ≠ [])
    (h : ∀ g ∈ fs, cleanField g) :
    ∀ d, (joinWith ',' (fs.map (fun s => s.data))).reverse.head? = some d →
      isJsSpace d = false := by
  intro d hd
  obtain ⟨fd, hfd, he⟩ := reverse_head?_joinWith ','
    (fs.map (fun s => s.data)) (by simpa using hne)
    (by
      intro x hx
      obtain ⟨s, hs, rfl⟩ := List.mem_map.mp hx
      exact (h s hs).1)
  rw [he] at hd
  obtain ⟨s, hs, rfl⟩ := List.mem_map.mp hfd
  exact (h s hs).2.2.2 d hd

theorem line_trim (fs : List String) (hne : fs ≠ [])
    (h : ∀ f ∈ fs, cleanField f) :
    trimChars (joinWith ',' (fs.map (fun s => s.data))) =
      joinWith ',' (fs.map (fun s => s.data)) := by
  rcases fs with _ | ⟨f, rest⟩
  · exact absurd rfl hne
  · exact trimChars_of_ends _ (line_head_nonspace f rest h)
      (line_last_nonspace (f :: rest) (by simp) h)

theorem parseLine_clean (fs : List String) (hne : fs ≠ [])
    (h : ∀ f ∈ fs, cleanField f) :
    (splitOnChar ',' (joinWith ',' (fs.map (fun s => s.data)))).map
      (fun cs => String.mk (trimChars cs)) = fs := by
  rw [splitOnChar_joinWith ',' _ (by simpa using hne) ?hc]
  case hc =>
    intro f hf x hx
    obtain ⟨s, hs, rfl⟩ := List.mem_map.mp hf
    exact ((h s hs).2.1 x hx).1
  rw [List.map_map]
  have hpt : ∀ s ∈ fs,
      ((fun cs => String.mk (trimChars cs)) ∘ (fun s : String => s.data)) s =
        (fun s => s) s := by
    intro s hs
    show String.mk (trimChars s.data) = s
    rw [trimChars_of_ends s.data (h s hs).2.2.1 (h s hs).2.2.2]
  rw [List.map_congr_left hpt, List.map_id']

theorem parse_pipeline (fss : List (List String)) (hne : fss ≠ [])
    (hclean : ∀ fs ∈ fss, ∀ f ∈ fs, cleanField f)
    (hfs : ∀ fs ∈ fss, fs ≠ []) :
    ((((splitOnChar '\n' (trimChars (List.flatten
        ((fss.map renderLine).map (fun l => l ++ ['\r', '\n']))))).map
        dropTrailingCR).map trimChars).filter (fun l => !l.isEmpty)).map
      (fun line => (splitOnChar ',' line).map
        (fun cs => String.mk (trimChars cs))) = fss := by
  rcases fss with _ | ⟨fs₀, fss'⟩
  · exact absurd rfl hne
  rcases hfs₀e : fs₀ with _ | ⟨f₀, fs₀r⟩
  · exact absurd hfs₀e (hfs fs₀ (by simp))
  subst hfs₀e
  have hline_eq : ∀ fs ∈ (f₀ :: fs₀r) :: fss',
      renderLine fs = joinWith ',' (fs.map (fun s => s.data)) :=
    fun fs h => renderLine_clean fs (hclean fs h)
  have hline_ne : ∀ l ∈ ((f₀ :: fs₀r) :: fss').map renderLine, l ≠ [] := by
    intro l hl
    obtain ⟨fs, hfsm, rfl⟩ := List.mem_map.mp hl
    rw [hline_eq fs hfsm]
    rcases hfse : fs with _ | ⟨f, rest⟩
    · exact absurd hfse (hfs fs hfsm)
    · subst hfse
      exact joinWith_ne_nil ',' f.data _ (hclean _ hfsm f (by simp)).1
  have hno : ∀ l ∈ ((f₀ :: fs₀r) :: fss').map renderLine,
      ∀ x ∈ l, x ≠ '\n' ∧ x ≠ '\r' := by
    intro l hl x hx
    obtain ⟨fs, hfsm, rfl⟩ := List.mem_map.mp hl
    rw [hline_eq fs hfsm] at hx
    exact line_no_crlf fs (hclean fs hfsm) x hx
  rw [flatten_crlf_eq _ (by simp)]
  rw [trim_body_crlf _ ?hBne ?hBhead ?hBlast]
  rw [split_crlfIntercalate _ (by simp)
    (fun l hl x hx => (hno l hl x hx).1)]
  rw [map_dropCR_markCR _ (fun l hl x hx => (hno l hl x hx).2)]
  have hpt : ∀ l ∈ ((f₀ :: fs₀r) :: fss').map renderLine,
      trimChars l = (fun l => l) l := by
    intro l hl
    obtain ⟨fs, hfsm, rfl⟩ := List.mem_map.mp hl
    rw [hline_eq fs hfsm]
    exact line_trim fs (hfs fs hfsm) (hclean fs hfsm)
  rw [List.map_congr_left hpt, List.map_id']
  have hfilter : (((f₀ :: fs₀r) :: fss').map renderLine).filter
      (fun l => !l.isEmpty) = ((f₀ :: fs₀r) :: fss').map renderLine := by
    apply List.filter_eq_self.mpr
    intro l hl
    rcases hle : l with _ | ⟨x, xs⟩
    · exact absurd hle (hline_ne l hl)
    · rfl
  rw [hfilter, List.map_map]
  have hfinal : ∀ fs ∈ (f₀ :: fs₀r) :: fss',
      ((fun line => (splitOnChar ',' line).map
        (fun cs => String.mk (trimChars cs))) ∘ renderLine) fs =
        (fun fs => fs) fs := by
    intro fs hfsm
    show (splitOnChar ',' (renderLine fs)).map
      (fun cs => String.mk (trimChars cs)) = fs
    rw [hline_eq fs hfsm]
    exact parseLine_clean fs (hfs fs hfsm) (hclean fs hfsm)
  rw [List.map_congr_left hfinal, List.map_id']
  case hBne =>
    exact crlfIntercalate_ne_nil (renderLine (f₀ :: fs₀r))
      (fss'.map renderLine) (hline_ne _ (by simp))
  case hBhead =>
    intro d hd
    rw [show ((f₀ :: fs₀r) :: fss').map renderLine =
        renderLine (f₀ :: fs₀r) :: fss'.map renderLine from rfl,
      head?_crlfIntercalate _ _ (hline_ne _ (by simp))] at hd
    rw [hline_eq (f₀ :: fs₀r) (by simp)] at hd
    exact line_head_nonspace f₀ fs₀r (hclean _ (by simp)) d hd
  case hBlast =>
    intro d hd
    obtain ⟨l, hlm, he⟩ := reverse_head?_crlfIntercalate
      (((f₀ :: fs₀r) :: fss').map renderLine) (by simp) hline_ne
    rw [he] at hd
    obtain ⟨fs, hfsm, rfl⟩ := List.mem_map.mp hlm
    rw [hline_eq fs hfsm] at hd
    exact line_last_nonspace fs (hfs fs hfsm) (hclean fs hfsm) d hd

/-- Round trip at the level of field lists: parsing the exported CSV of
any list of lines of clean fields returns exactly those lines. -/
theorem parseCsv_render (fss : List (List String)) (hne : fss ≠ [])
    (hclean : ∀ fs ∈ fss, ∀ f ∈ fs, cleanField f)
    (hfs : ∀ fs ∈ fss, fs ≠ []) :
    parseCsv (String.mk (List.flatten
      ((fss.map renderLine).map (fun l => l ++ ['\r', '\n'])))) = fss :=
  parse_pipeline fss hne hclean hfs

/-! ## Frontend: entry validation (record page) -/

/-- The record page's normalizeSailNumber: trim and remove all whitespace
(removing all whitespace subsumes the trim). -/
def normalizeSailNumber (s : String) : String :=
  String.mk (s.data.filter (fun c => !isJsSpace c))

/-- The record page's isSailNumberInvalid: true when the normalized sail
number is nonempty and does not match any entry of the event (after
normalizing those too). -/
def isSailNumberInvalid (entries : List Entry) (sailNumber : String) : Bool :=
  decide ((normalizeSailNumber sailNumber).length > 0) &&
    !((entries.map (fun e => normalizeSailNumber e.sail_number)).contains
      (normalizeSailNumber sailNumber))

/-- A data-inconsistency report, carrying the offending reference. -/
inductive DataInconsistencyError where
  | unknownSail (sail_number : String)
  | unknownRace (race_id : String)
deriving DecidableEq, Repr

/-- Modelled from the spec: the engine entry point with the §4.1/§7
data-inconsistency checks; the engine code is not under the repository's
source tree, so the error channel follows the spec's words — a finish
referencing a sail number outside the entry universe, or a race id outside
the event's race list, is reported (with the offending reference) and no
result rows are produced. -/
def computeSeriesResult (entries : List Entry) (races : List Race)
    (finishes : List Finish) (thresholds : List Nat) :
    Except DataInconsistencyError (List ResultRow) :=
  match finishes.find?
      (fun f => !((entries.map Entry.sail_number).contains f.sail_number)) with
  | some f => .error (.unknownSail f.sail_number)
  | none =>
    match finishes.find?
        (fun f => !((races.map Race.race_id).contains f.race_id)) with
    | some f => .error (.unknownRace f.race_id)
    | none => .ok (build_series_result entries races finishes thresholds)

/-! ## Frontend: finish-time helpers (record/enter page) -/

theorem string_mk_data (l : List Char) : (String.mk l).data = l := rfl

/-- JS String(n).padStart(2, "0") for the numbers this page formats. -/
def jsPad2 (n : Nat) : List Char :=
  if n < 10 then '0' :: (Nat.repr n).data else (Nat.repr n).data

/-- Leading digits of a string as a number; none when there is no leading
digit (parseInt's NaN). -/
def parseDigits (l : List Char) : Option Nat :=
  if (l.takeWhile Char.isDigit).isEmpty then none
  else some ((l.takeWhile Char.isDigit).foldl
    (fun acc c => acc * 10 + (c.toNat - 48)) 0)

/-- JS parseInt(str, 10): skip whitespace, optional sign, leading
digits. -/
def jsParseInt (l : List Char) : Option Int :=
  match l.dropWhile isJsSpace with
  | '-' :: rest => (parseDigits rest).map (fun n => -(n : Int))
  | '+' :: rest => (parseDigits rest).map (fun n => (n : Int))
  | t => (parseDigits t).map (fun n => (n : Int))

/-- The record page's secondsToFinishTime: normalize into one day (the JS
% operator is a truncated remainder, hence the add-and-mod-again idiom)
and format as HH:MM:SS. -/
def secondsToFinishTime (totalSeconds : Int) : String :=
  let v := (((totalSeconds.tmod 86400) + 86400).tmod 86400).toNat
  String.mk (jsPad2 (v / 3600) ++ ':' :: (jsPad2 (v % 3600 / 60) ++ ':' :: jsPad2 (v % 60)))

/-- The record page's parseFinishTimeToSeconds: trim, split on colons,
parse every part, require at least three parts, all numeric and
non-negative, minutes and seconds below 60; the result is seconds since
midnight. -/
def parseFinishTimeToSeconds (timeStr : String) : Option Int :=
  let trimmed := trimChars timeStr.data
  if trimmed.isEmpty then none
  else
    let parts := (splitOnChar ':' trimmed).map jsParseInt
    if parts.length < 3 then none
    else if parts.any (fun p => p.isNone || decide (p.getD 0 < 0)) then none
    else
      match parts with
      | h :: m :: s :: _ =>
        if 60 ≤ m.getD 0 ∨ 60 ≤ s.getD 0 then none
        else some (h.getD 0 * 3600 + m.getD 0 * 60 + s.getD 0)
      | _ => none

theorem jsPad2_digits : ∀ n, n < 60 → (jsPad2 n).all Char.isDigit = true := by
  decide

theorem jsPad2_length : ∀ n, n < 60 → (jsPad2 n).length = 2 := by
  decide

theorem jsParseInt_pad2 : ∀ n, n < 60 → jsParseInt (jsPad2 n) = some (n : Int) := by
  decide

theorem digit_not_space {c : Char} (h : c.isDigit = true) :
    isJsSpace c = false := by
  unfold isJsSpace
  by_contra hc
  rw [Bool.not_eq_false] at hc
  simp only [Bool.or_eq_true, beq_iff_eq] at hc
  rcases hc with ((rfl | rfl) | rfl) | rfl <;> exact absurd h (by decide)

theorem tmod_day_lower (t : Int) : -86400 < t.tmod 86400 := by
  cases t with
  | ofNat m =>
    have h : 0 ≤ (Int.ofNat m).tmod 86400 :=
      Int.tmod_nonneg _ (Int.ofNat_nonneg m)
    omega
  | negSucc m =>
    show -86400 < -(Int.ofNat ((m + 1) % 86400))
    have h : (m + 1) % 86400 < 86400 := Nat.mod_lt _ (by omega)
    have h2 : (Int.ofNat ((m + 1) % 86400)) = (((m + 1) % 86400 : Nat) : Int) := rfl
    rw [h2]
    omega

theorem norm_day_bounds (t : Int) :
    0 ≤ ((t.tmod 86400) + 86400).tmod 86400 ∧
      ((t.tmod 86400) + 86400).tmod 86400 < 86400 := by
  have h1 : 0 ≤ t.tmod 86400 + 86400 := by
    have := tmod_day_lower t
    omega
  exact ⟨Int.tmod_nonneg _ h1, Int.tmod_lt_of_pos _ (by omega)⟩

theorem digit_ne_colon {c : Char} (h : c.isDigit = true) : c ≠ ':' := by
  intro he
  rw [he] at h
  exact absurd h (by decide)

theorem parse_hms (h m s : Nat) (hh : h < 24) (hm : m < 60) (hs : s < 60) :
    parseFinishTimeToSeconds (String.mk
      (jsPad2 h ++ ':' :: (jsPad2 m ++ ':' :: jsPad2 s))) =
      some ((h : Int) * 3600 + (m : Int) * 60 + (s : Int)) := by
  have hdig : ∀ (n : Nat), n < 60 → ∀ x ∈ jsPad2 n, x.isDigit = true := by
    intro n hn x hx
    exact List.all_eq_true.mp (jsPad2_digits n hn) x hx
  have hchars : ∀ x ∈ jsPad2 h ++ ':' :: (jsPad2 m ++ ':' :: jsPad2 s),
      isJsSpace x = false := by
    intro x hx
    rcases List.mem_append.mp hx with hx | hx
    · exact digit_not_space (hdig h (by omega) x hx)
    · rcases List.mem_cons.mp hx with rfl | hx
      · decide
      · rcases List.mem_append.mp hx with hx | hx
        · exact digit_not_space (hdig m hm x hx)
        · rcases List.mem_cons.mp hx with rfl | hx
          · decide
          · exact digit_not_space (hdig s hs x hx)
  have htrim : trimChars (jsPad2 h ++ ':' :: (jsPad2 m ++ ':' :: jsPad2 s)) =
      jsPad2 h ++ ':' :: (jsPad2 m ++ ':' :: jsPad2 s) :=
    trimChars_of_all hchars
  have hsplit : splitOnChar ':' (jsPad2 h ++ ':' :: (jsPad2 m ++ ':' :: jsPad2 s)) =
      [jsPad2 h, jsPad2 m, jsPad2 s] := by
    rw [splitOnChar_append ':' (jsPad2 h) _
      (fun x hx => digit_ne_colon (hdig h (by omega) x hx))]
    rw [splitOnChar_append ':' (jsPad2 m) _
      (fun x hx => digit_ne_colon (hdig m hm x hx))]
    rw [splitOnChar_eq_single (fun x hx => digit_ne_colon (hdig s hs x hx))]
  have hparts : ([jsPad2 h, jsPad2 m, jsPad2 s]).map jsParseInt =
      [some (h : Int), some (m : Int), some (s : Int)] := by
    rw [List.map_cons, List.map_cons, List.map_cons, List.map_nil,
      jsParseInt_pad2 h (by omega), jsParseInt_pad2 m hm, jsParseInt_pad2 s hs]
  obtain ⟨a₁, a₂, hab⟩ := List.length_eq_two.mp (jsPad2_length h (by omega))
  have hne : ¬((jsPad2 h ++ ':' :: (jsPad2 m ++ ':' :: jsPad2 s)).isEmpty = true) := by
    rw [hab]
    simp
  have hng : ∀ (n : Nat), decide ((n : Int) < 0) = false := by
    intro n
    exact decide_eq_false (not_lt.mpr (Int.natCast_nonneg n))
  have hgm : ¬(60 ≤ (m : Int) ∨ 60 ≤ (s : Int)) := by omega
  unfold parseFinishTimeToSeconds
  rw [string_mk_data, htrim, if_neg hne]
  simp only [hsplit, hparts, List.length_cons, List.length_nil, List.any_cons,
    List.any_nil, Option.isNone_some, Option.getD_some, hng, Bool.or_false,
    Bool.false_or]
  rw [if_neg (by omega : ¬(3 < 3)), if_neg hgm]
  simp

/-! ## Discard counts per result row -/

theorem preRow_discard_count (d : Nat) (b : String × List ScoreCell) :
    (preRow d b).scores.countP (fun c => c.discarded) = min d b.2.length := by
  have hflen : (total_and_net (b.2.map ScoreCell.value) d).2.2.length =
      b.2.length := by
    show (((b.2.map ScoreCell.value).enum).map _).length = _
    rw [List.length_map, List.enum_length, List.length_map]
  show ((b.2.zip (total_and_net (b.2.map ScoreCell.value) d).2.2).map
    (fun p => (⟨p.1.value, p.1.code, p.2⟩ : RowCell))).countP
      (fun c => c.discarded) = _
  rw [List.countP_map]
  have hsnd : (b.2.zip (total_and_net (b.2.map ScoreCell.value) d).2.2).map
      Prod.snd = (total_and_net (b.2.map ScoreCell.value) d).2.2 :=
    List.map_snd_zip _ _ (le_of_eq hflen)
  calc List.countP ((fun c : RowCell => c.discarded) ∘
        fun p : ScoreCell × Bool => (⟨p.1.value, p.1.code, p.2⟩ : RowCell))
        (b.2.zip (total_and_net (b.2.map ScoreCell.value) d).2.2)
      = List.countP ((fun x : Bool => x) ∘ Prod.snd)
          (b.2.zip (total_and_net (b.2.map ScoreCell.value) d).2.2) := rfl
    _ = List.countP (fun x => x)
          ((b.2.zip (total_and_net (b.2.map ScoreCell.value) d).2.2).map
            Prod.snd) := (List.countP_map _ _ _).symm
    _ = min d b.2.length := by
        rw [hsnd, count_discard_flags, List.length_map]

theorem build_row_discard_count (entries : List Entry) (races : List Race)
    (finishes : List Finish) (thresholds : List Nat) {r : ResultRow}
    (hr : r ∈ build_series_result entries races finishes thresholds) :
    r.scores.countP (fun c => c.discarded) =
      min (num_discards races.length thresholds) races.length := by
  obtain ⟨k, b, hb, rfl⟩ := mem_rankBoats _ _ hr
  obtain ⟨e, _, rfl⟩ := List.mem_map.mp hb
  show (preRow _ _).scores.countP (fun c => c.discarded) = _
  rw [preRow_discard_count, List.length_map]

/-! ## Claims -/

/-- C3: the number of discards equals the count of thresholds at most the
race count; with thresholds [3,6,9] the counts for 2/4/7/9 races are
0/1/2/3; and the discard count is series-level — every row of a series
result carries the same number of discarded scores. -/
theorem claim_C3 :
    (∀ (n : Nat) (ts : List Nat),
      num_discards n ts = (ts.filter (fun t => decide (t ≤ n))).length) ∧
    num_discards 2 [3, 6, 9] = 0 ∧ num_discards 4 [3, 6, 9] = 1 ∧
    num_discards 7 [3, 6, 9] = 2 ∧ num_discards 9 [3, 6, 9] = 3 ∧
    (∀ (entries : List Entry) (races : List Race) (finishes : List Finish)
      (thresholds : List Nat) (r₁ r₂ : ResultRow),
      r₁ ∈ build_series_result entries races finishes thresholds →
      r₂ ∈ build_series_result entries races finishes thresholds →
      r₁.scores.countP (fun c => c.discarded) =
        r₂.scores.countP (fun c => c.discarded)) := by
  refine ⟨num_discards_eq_filter, by decide, by decide, by decide, by decide, ?_⟩
  intro entries races finishes thresholds r₁ r₂ h₁ h₂
  rw [build_row_discard_count entries races finishes thresholds h₁,
    build_row_discard_count entries races finishes thresholds h₂]

/-- Witness for C3's series-level conjunct at a concrete two-boat event. -/
theorem claim_C3_witness :
    ((build_series_result [⟨"A"⟩, ⟨"B"⟩] [] [] []).get
        ⟨0, by decide⟩).scores.countP (fun c => c.discarded) =
      ((build_series_result [⟨"A"⟩, ⟨"B"⟩] [] [] []).get
        ⟨1, by decide⟩).scores.countP (fun c => c.discarded) :=
  claim_C3.2.2.2.2.2 [⟨"A"⟩, ⟨"B"⟩] [] [] [] _ _
    (List.get_mem _ _ _) (List.get_mem _ _ _)

/-- C4: with a valid (ascending, positive) threshold sequence, TOTAL is
the sum of the boat's scores, NET never exceeds TOTAL, TOTAL − NET is the
sum of the scores flagged discarded, and the number of flagged scores is
num_discards of the race count. -/
theorem claim_C4 (scores : List Nat) (thresholds : List Nat)
    (hts : validThresholds thresholds) :
    (total_and_net scores (num_discards scores.length thresholds)).1 =
      scores.sum ∧
    (total_and_net scores (num_discards scores.length thresholds)).2.1 ≤
      (total_and_net scores (num_discards scores.length thresholds)).1 ∧
    (total_and_net scores (num_discards scores.length thresholds)).1 -
      (total_and_net scores (num_discards scores.length thresholds)).2.1 =
      flaggedSum scores
        (total_and_net scores (num_discards scores.length thresholds)).2.2 ∧
    (total_and_net scores (num_discards scores.length thresholds)).2.2.countP
      (fun b => b) = num_discards scores.length thresholds := by
  have hd : num_discards scores.length thresholds ≤ scores.length :=
    num_discards_le thresholds hts scores.length
  refine ⟨rfl, Nat.sub_le _ _, ?_, ?_⟩
  · rw [flaggedSum_eq_discardSum]
    show scores.sum - (scores.sum - _) = _
    exact Nat.sub_sub_self (discardSum_le_total scores _)
  · rw [count_discard_flags]
    exact Nat.min_eq_left hd

/-- Witness for C4 at a concrete boat. -/
theorem claim_C4_witness :
    (total_and_net [1, 2, 3, 4]
      (num_discards [1, 2, 3, 4].length [3])).1 = [1, 2, 3, 4].sum ∧
    (total_and_net [1, 2, 3, 4] (num_discards [1, 2, 3, 4].length [3])).2.1 ≤
      (total_and_net [1, 2, 3, 4] (num_discards [1, 2, 3, 4].length [3])).1 ∧
    (total_and_net [1, 2, 3, 4] (num_discards [1, 2, 3, 4].length [3])).1 -
      (total_and_net [1, 2, 3, 4] (num_discards [1, 2, 3, 4].length [3])).2.1 =
      flaggedSum [1, 2, 3, 4]
        (total_and_net [1, 2, 3, 4] (num_discards [1, 2, 3, 4].length [3])).2.2 ∧
    (total_and_net [1, 2, 3, 4]
      (num_discards [1, 2, 3, 4].length [3])).2.2.countP (fun b => b) =
      num_discards [1, 2, 3, 4].length [3] :=
  claim_C4 [1, 2, 3, 4] [3] (by decide)

/-- C5: the discard selection is upward closed — if a score is discarded,
any equal score in a later race is discarded too — and on the concrete
boat with scores [3, 3] and one discard it is the second race that is
discarded. -/
theorem claim_C5 :
    (∀ (scores : List Nat) (d i j : Nat), j < scores.length → i < j →
      scores.getD i 0 = scores.getD j 0 →
      (total_and_net scores d).2.2.getD i false = true →
      (total_and_net scores d).2.2.getD j false = true) ∧
    (total_and_net [3, 3] 1).2.2 = [false, true] := by
  constructor
  · intro scores d i j hj hij heq hi
    have hflag : ∀ (k : Nat), k < scores.length →
        (total_and_net scores d).2.2.getD k false =
          decide (k ∈ discardedIdx scores d) := by
      intro k hk
      show ((scores.enum.map
        (fun p => decide (p.1 ∈ discardedIdx scores d))).getD k false) = _
      rw [List.getD_eq_getElem?_getD, List.getElem?_map, List.getElem?_enum,
        List.getElem?_eq_getElem hk]
      rfl
    rw [hflag i (by omega)] at hi
    rw [hflag j hj]
    exact decide_eq_true
      (discard_upclosed scores d hj hij heq (of_decide_eq_true hi))
  · decide

/-- Witness for C5's general conjunct: with scores [3, 3] and two
discards, race 1 being discarded forces race 2 to be discarded. -/
theorem claim_C5_witness :
    (total_and_net [3, 3] 2).2.2.getD 1 false = true :=
  claim_C5.1 [3, 3] 2 0 1 (by decide) (by decide) (by decide) (by decide)

/-- C8 as stated is false: num_discards can exceed the race count for an
ascending threshold sequence — with the non-strictly-ascending [1, 1] and
one race the count is 2, and with the (vacuously ascending, non-negative)
[0] and zero races the count is 1. -/
theorem claim_C8_counterexample :
    (num_discards 1 [1, 1] = 2 ∧ ¬(num_discards 1 [1, 1] ≤ 1)) ∧
    (List.Pairwise (· < ·) [0] ∧ (∀ t ∈ [0], 0 ≤ t) ∧
      num_discards 0 [0] = 1 ∧ ¬(num_discards 0 [0] ≤ 0)) := by
  decide

/-- C8 amended: num_discards is monotone non-decreasing in the race count
for every threshold sequence, and bounded by the race count whenever the
thresholds are strictly ascending and positive. -/
theorem claim_C8 :
    (∀ (ts : List Nat) (n m : Nat), n ≤ m →
      num_discards n ts ≤ num_discards m ts) ∧
    (∀ (ts : List Nat) (n : Nat), validThresholds ts →
      num_discards n ts ≤ n) :=
  ⟨fun ts _ _ h => num_discards_mono ts h,
    fun ts n hts => num_discards_le ts hts n⟩

/-- Witness for C8 at the documented thresholds. -/
theorem claim_C8_witness :
    num_discards 2 [3, 6, 9] ≤ num_discards 5 [3, 6, 9] ∧
      num_discards 7 [3, 6, 9] ≤ 7 :=
  ⟨claim_C8.1 [3, 6, 9] 2 5 (by decide), claim_C8.2 [3, 6, 9] 7 (by decide)⟩

theorem build_map_sail_perm (entries : List Entry) (races : List Race)
    (finishes : List Finish) (thresholds : List Nat) :
    List.Perm ((build_series_result entries races finishes thresholds).map
      ResultRow.sail_number) (entries.map Entry.sail_number) := by
  have h := rankBoats_map_sail (entries.map (fun e => (e.sail_number,
    races.map (fun r => cellFor finishes entries.length e.sail_number r.race_id))))
    (num_discards races.length thresholds)
  rw [List.map_map] at h
  exact h

/-- C1: the series result is ordered by the combined key (NET, A8.1 tuple,
A8.2 tuple) compared lexicographically, and on the spec's end-to-end
scenario — thresholds [3], 4 races, scores X = (1,2,3,4) and
Y = (2,1,4,3) — both total 10 and net 6, A8.1 ties, and A8.2 (last race
first) ranks Y first and X second. -/
theorem claim_C1 :
    (∀ (entries : List Entry) (races : List Race) (finishes : List Finish)
        (thresholds : List Nat),
      (build_series_result entries races finishes thresholds).Pairwise
        (fun r₁ r₂ => rowKey r₁ ≤ rowKey r₂)) ∧
    (rankBoats [("X", [⟨1, none⟩, ⟨2, none⟩, ⟨3, none⟩, ⟨4, none⟩]),
        ("Y", [⟨2, none⟩, ⟨1, none⟩, ⟨4, none⟩, ⟨3, none⟩])]
      (num_discards 4 [3])).map
        (fun r => (r.sail_number, r.rank, r.total, r.net)) =
      [("Y", 1, 10, 6), ("X", 2, 10, 6)] ∧
    a81key [1, 2, 3, 4] [false, false, false, true] =
      a81key [2, 1, 4, 3] [false, false, true, false] ∧
    a82key [2, 1, 4, 3] < a82key [1, 2, 3, 4] := by
  refine ⟨fun entries races finishes thresholds =>
    rankBoats_sorted_keys _ _, ?_, ?_, ?_⟩
  · decide
  · decide
  · decide

/-- C9: series ranks are exactly 1..N in output order (N the number of
entries), every row's display string is the English ordinal of its rank,
and the ordinal formatting applies the 11th/12th/13th exception. -/
theorem claim_C9 :
    (∀ (entries : List Entry) (races : List Race) (finishes : List Finish)
        (thresholds : List Nat),
      (build_series_result entries races finishes thresholds).map
        ResultRow.rank = List.range' 1 entries.length) ∧
    (∀ (entries : List Entry) (races : List Race) (finishes : List Finish)
        (thresholds : List Nat) (r : ResultRow),
      r ∈ build_series_result entries races finishes thresholds →
      r.rank_display = ordinalDisplay r.rank) ∧
    ordinalDisplay 1 = "1st" ∧ ordinalDisplay 2 = "2nd" ∧
    ordinalDisplay 3 = "3rd" ∧ ordinalDisplay 4 = "4th" ∧
    ordinalDisplay 11 = "11th" ∧ ordinalDisplay 12 = "12th" ∧
    ordinalDisplay 13 = "13th" ∧ ordinalDisplay 21 = "21st" ∧
    ordinalDisplay 111 = "111th" ∧ ordinalDisplay 101 = "101st" := by
  refine ⟨?_, ?_, by decide, by decide, by decide, by decide, by decide,
    by decide, by decide, by decide, by decide, by decide⟩
  · intro entries races finishes thresholds
    show (rankBoats _ _).map ResultRow.rank = _
    rw [rankBoats_ranks, List.length_map]
  · intro entries races finishes thresholds r hr
    obtain ⟨k, b, _, rfl⟩ := mem_rankBoats _ _ hr
    rfl

/-- Witness for C9's display conjunct at a one-boat event. -/
theorem claim_C9_witness :
    (⟨"A", 1, "1st", [], 0, 0⟩ : ResultRow).rank_display =
      ordinalDisplay (⟨"A", 1, "1st", [], 0, 0⟩ : ResultRow).rank :=
  claim_C9.2.1 [⟨"A"⟩] [] [] [] _ (by decide)

/-- C2: the result rows' sail numbers are a permutation of the entries'
sail numbers (one row per entry); an entry with no finish at all still
appears, with every cell a DNC worth n_boats + 1 and TOTAL the sum of
those penalties; and a finish carrying a penalty code yields the penalty
value with that code. -/
theorem claim_C2 :
    (∀ (entries : List Entry) (races : List Race) (finishes : List Finish)
        (thresholds : List Nat),
      List.Perm ((build_series_result entries races finishes thresholds).map
        ResultRow.sail_number) (entries.map Entry.sail_number)) ∧
    (∀ (entries : List Entry) (races : List Race) (finishes : List Finish)
        (thresholds : List Nat) (e : Entry), e ∈ entries →
      (∀ f ∈ finishes, f.sail_number ≠ e.sail_number) →
      ∃ r ∈ build_series_result entries races finishes thresholds,
        r.sail_number = e.sail_number ∧
        (∀ c ∈ r.scores, c.value = entries.length + 1 ∧
          c.code = some "DNC") ∧
        r.total = races.length * (entries.length + 1)) ∧
    (∀ (finishes : List Finish) (nBoats : Nat) (sail rid : String)
        (f : Finish) (c : String),
      finishes.find? (fun f => f.sail_number == sail && f.race_id == rid) =
        some f →
      f.rc_scoring = some c →
      cellFor finishes nBoats sail rid = ⟨nBoats + 1, some c⟩) := by
  refine ⟨build_map_sail_perm, ?_, ?_⟩
  · intro entries races finishes thresholds e he hnof
    have hcell : ∀ rc ∈ races,
        cellFor finishes entries.length e.sail_number rc.race_id =
          ⟨entries.length + 1, some "DNC"⟩ := by
      intro rc _
      unfold cellFor
      have hfind : finishes.find?
          (fun f => f.sail_number == e.sail_number &&
            f.race_id == rc.race_id) = none := by
        apply List.find?_eq_none.mpr
        intro f hf
        have hne := hnof f hf
        simp [hne]
      rw [hfind]
    have hb : (e.sail_number, races.map (fun r =>
        cellFor finishes entries.length e.sail_number r.race_id)) ∈
        entries.map (fun e => (e.sail_number, races.map (fun r =>
          cellFor finishes entries.length e.sail_number r.race_id))) :=
      List.mem_map_of_mem _ he
    obtain ⟨k, hk⟩ := rankBoats_mem_of _
      (num_discards races.length thresholds) hb
    refine ⟨_, hk, rfl, ?_, ?_⟩
    · intro c hc
      obtain ⟨p, hp, rfl⟩ := List.mem_map.mp hc
      have hp1 : p.1 ∈ races.map (fun r =>
          cellFor finishes entries.length e.sail_number r.race_id) :=
        (List.of_mem_zip hp).1
      obtain ⟨rc, hrc, hpe⟩ := List.mem_map.mp hp1
      constructor
      · show p.1.value = entries.length + 1
        rw [← hpe, hcell rc hrc]
      · show p.1.code = some "DNC"
        rw [← hpe, hcell rc hrc]
    · show ((races.map (fun r =>
        cellFor finishes entries.length e.sail_number r.race_id)).map
        ScoreCell.value).sum = races.length * (entries.length + 1)
      rw [List.map_map]
      have hval : ∀ rc ∈ races, (ScoreCell.value ∘ fun r =>
          cellFor finishes entries.length e.sail_number r.race_id) rc =
          (fun _ => entries.length + 1) rc := by
        intro rc hrc
        show (cellFor finishes entries.length e.sail_number rc.race_id).value = _
        rw [hcell rc hrc]
      rw [List.map_congr_left hval, List.map_const', List.sum_replicate,
        smul_eq_mul]
  · intro finishes nBoats sail rid f c hfind hrc
    unfold cellFor
    simp only [hfind, hrc]

/-- Witness for C2 at a one-entry event with no finishes and at a coded
finish. -/
theorem claim_C2_witness :
    (∃ r ∈ build_series_result [⟨"A"⟩] [⟨"R1"⟩] [] [],
      r.sail_number = ("A" : String) ∧
      (∀ c ∈ r.scores, c.value = ([(⟨"A"⟩ : Entry)].length + 1) ∧
        c.code = some "DNC") ∧
      r.total = [(⟨"R1"⟩ : Race)].length * ([(⟨"A"⟩ : Entry)].length + 1)) ∧
    cellFor [⟨"B", "R1", 5, some "OCS"⟩] 1 "B" "R1" = ⟨2, some "OCS"⟩ :=
  ⟨claim_C2.2.1 [⟨"A"⟩] [⟨"R1"⟩] [] [] ⟨"A"⟩ (by decide) (by simp),
    claim_C2.2.2 [⟨"B", "R1", 5, some "OCS"⟩] 1 "B" "R1"
      ⟨"B", "R1", 5, some "OCS"⟩ "OCS" rfl rfl⟩

/-- C7: a finish referencing an unknown sail number or unknown race id
makes the engine report a data-inconsistency error instead of any result;
a successful result has exactly the entered boats (no phantom row, nothing
dropped); and the frontend flags a nonempty sail number outside the entry
list as invalid. -/
theorem claim_C7 :
    (∀ (entries : List Entry) (races : List Race) (finishes : List Finish)
        (thresholds : List Nat) (f : Finish), f ∈ finishes →
      (f.sail_number ∉ entries.map Entry.sail_number ∨
        f.race_id ∉ races.map Race.race_id) →
      ∃ err, computeSeriesResult entries races finishes thresholds =
        Except.error err) ∧
    (∀ (entries : List Entry) (races : List Race) (finishes : List Finish)
        (thresholds : List Nat) (rows : List ResultRow),
      computeSeriesResult entries races finishes thresholds =
        Except.ok rows →
      List.Perm (rows.map ResultRow.sail_number)
        (entries.map Entry.sail_number)) ∧
    (∀ (entries : List Entry) (sn : String),
      isSailNumberInvalid entries sn = true ↔
        (normalizeSailNumber sn ≠ "" ∧
          normalizeSailNumber sn ∉
            entries.map (fun e => normalizeSailNumber e.sail_number))) := by
  refine ⟨?_, ?_, ?_⟩
  · intro entries races finishes thresholds f hf hbad
    unfold computeSeriesResult
    cases h1 : finishes.find?
        (fun f => !((entries.map Entry.sail_number).contains f.sail_number)) with
    | some g => exact ⟨.unknownSail g.sail_number, rfl⟩
    | none =>
      have hrace : f.race_id ∉ races.map Race.race_id := by
        rcases hbad with hb | hb
        · exfalso
          apply hb
          have h := List.find?_eq_none.mp h1 f hf
          simpa using h
        · exact hb
      have h2 : (finishes.find?
          (fun f => !((races.map Race.race_id).contains f.race_id))).isSome = true := by
        rw [List.find?_isSome]
        exact ⟨f, hf, by simpa using hrace⟩
      obtain ⟨g, hg⟩ := Option.isSome_iff_exists.mp h2
      rw [hg]
      exact ⟨.unknownRace g.race_id, rfl⟩
  · intro entries races finishes thresholds rows hok
    unfold computeSeriesResult at hok
    cases h1 : finishes.find?
        (fun f => !((entries.map Entry.sail_number).contains f.sail_number)) with
    | some g =>
      rw [h1] at hok
      simp at hok
    | none =>
      rw [h1] at hok
      cases h2 : finishes.find?
          (fun f => !((races.map Race.race_id).contains f.race_id)) with
      | some g =>
        rw [h2] at hok
        simp at hok
      | none =>
        rw [h2] at hok
        simp only [Except.ok.injEq] at hok
        subst hok
        exact build_map_sail_perm entries races finishes thresholds
  · intro entries sn
    unfold isSailNumberInvalid
    constructor
    · intro h
      rw [Bool.and_eq_true] at h
      obtain ⟨h1, h2⟩ := h
      refine ⟨?_, ?_⟩
      · intro he
        have hlen := of_decide_eq_true h1
        rw [he] at hlen
        exact absurd hlen (by decide)
      · intro hmem
        have hcont : (entries.map
            (fun e => normalizeSailNumber e.sail_number)).contains
            (normalizeSailNumber sn) = true := by
          simpa using hmem
        rw [hcont] at h2
        exact absurd h2 (by decide)
    · intro hpair
      rw [Bool.and_eq_true]
      constructor
      · apply decide_eq_true
        by_contra hle
        apply hpair.1
        have hz : (normalizeSailNumber sn).length = 0 := by omega
        have hd : (normalizeSailNumber sn).data = [] :=
          List.length_eq_zero.mp hz
        have he : normalizeSailNumber sn = String.mk
            (normalizeSailNumber sn).data := rfl
        rw [hd] at he
        exact he
      · rw [Bool.not_eq_true']
        apply Bool.eq_false_iff.mpr
        intro hc
        exact hpair.2 (by simpa using hc)

/-- Witness for C7: a finish with an unknown sail number is reported, an
event with no finishes succeeds with exactly its entries, and the
frontend check at a concrete sail number. -/
theorem claim_C7_witness :
    (∃ err, computeSeriesResult [] [] [⟨"Z", "R1", 0, none⟩] [] =
      Except.error err) ∧
    List.Perm ((build_series_result [] [] [] []).map ResultRow.sail_number)
      (([] : List Entry).map Entry.sail_number) ∧
    (isSailNumberInvalid [] "x" = true ↔
      (normalizeSailNumber "x" ≠ "" ∧
        normalizeSailNumber "x" ∉
          ([] : List Entry).map (fun e => normalizeSailNumber e.sail_number))) :=
  ⟨claim_C7.1 [] [] [⟨"Z", "R1", 0, none⟩] [] ⟨"Z", "R1", 0, none⟩
      (by decide) (Or.inl (by simp)),
    claim_C7.2.1 [] [] [] [] (build_series_result [] [] [] []) rfl,
    claim_C7.2.2 [] "x"⟩

/-- C6 as stated is false: a sail number containing the delimiter is
quoted in the exported text, but the frontend parseCsv splits each line on
every comma without unquoting, so the row is mis-split when read back. -/
theorem claim_C6_counterexample :
    (parseCsv (to_csv_string [⟨"a,b", 1, "1st", [], 0, 0⟩] [])).getD 1 [] ≠
      rowFields ⟨"a,b", 1, "1st", [], 0, 0⟩ := by
  decide

/-- C6 amended: the round trip reproduces every row's fields (rank
display, sail number, race cells with their discard parentheses, total,
net) whenever the rendered fields are clean — nonempty, free of
delimiter/quote/line-break characters and of leading or trailing
whitespace; and a field containing the delimiter is quoted in the exported
text (though the frontend parser will still mis-split it). -/
theorem claim_C6 (rows : List ResultRow) (raceIds : List String)
    (hclean : ∀ fs ∈ headerFields raceIds :: rows.map rowFields,
      ∀ f ∈ fs, cleanField f) :
    parseCsv (to_csv_string rows raceIds) =
      headerFields raceIds :: rows.map rowFields ∧
    (∀ f : List Char, ',' ∈ f →
      renderField f = '"' :: (escapeQuotes f ++ ['"'])) := by
  constructor
  · refine parseCsv_render (headerFields raceIds :: rows.map rowFields)
      (by simp) hclean ?_
    intro fs hfs
    rcases List.mem_cons.mp hfs with rfl | h'
    · simp [headerFields]
    · obtain ⟨r, _, rfl⟩ := List.mem_map.mp h'
      simp [rowFields]
  · intro f hcomma
    have hq : needsQuote f = true :=
      List.any_eq_true.mpr ⟨',', hcomma, by decide⟩
    unfold renderField
    rw [if_pos hq]

/-- Witness for C6 at a concrete ranked row with a discarded cell and a
penalty code. -/
theorem claim_C6_witness :
    parseCsv (to_csv_string [⟨"42", 1, "1st",
        [⟨3, none, true⟩, ⟨1, some "OCS", false⟩], 4, 1⟩] ["R1", "R2"]) =
      headerFields ["R1", "R2"] ::
        [(⟨"42", 1, "1st", [⟨3, none, true⟩, ⟨1, some "OCS", false⟩], 4, 1⟩ :
          ResultRow)].map rowFields ∧
    (∀ f : List Char, ',' ∈ f →
      renderField f = '"' :: (escapeQuotes f ++ ['"'])) :=
  claim_C6 [⟨"42", 1, "1st", [⟨3, none, true⟩, ⟨1, some "OCS", false⟩], 4, 1⟩]
    ["R1", "R2"] (by decide)

/-- C10: secondsToFinishTime always yields an HH:MM:SS string — hours
below 24, minutes and seconds below 60, eight characters — and
parseFinishTimeToSeconds applied to it returns exactly the JS-normalized
value ((s % 86400) + 86400) % 86400 (with % the truncated remainder),
never null. -/
theorem claim_C10 (t : Int) :
    (∃ h m s, h < 24 ∧ m < 60 ∧ s < 60 ∧
      secondsToFinishTime t =
        String.mk (jsPad2 h ++ ':' :: (jsPad2 m ++ ':' :: jsPad2 s)) ∧
      (secondsToFinishTime t).length = 8) ∧
    parseFinishTimeToSeconds (secondsToFinishTime t) =
      some (((t.tmod 86400) + 86400).tmod 86400) := by
  obtain ⟨hge, hlt⟩ := norm_day_bounds t
  have hsec : secondsToFinishTime t = String.mk
      (jsPad2 ((((t.tmod 86400) + 86400).tmod 86400).toNat / 3600) ++ ':' ::
        (jsPad2 ((((t.tmod 86400) + 86400).tmod 86400).toNat % 3600 / 60) ++ ':' ::
          jsPad2 ((((t.tmod 86400) + 86400).tmod 86400).toNat % 60))) := rfl
  have hh : (((t.tmod 86400) + 86400).tmod 86400).toNat / 3600 < 24 := by
    omega
  have hm : (((t.tmod 86400) + 86400).tmod 86400).toNat % 3600 / 60 < 60 := by
    omega
  have hs : (((t.tmod 86400) + 86400).tmod 86400).toNat % 60 < 60 := by
    omega
  constructor
  · refine ⟨_, _, _, hh, hm, hs, hsec, ?_⟩
    rw [hsec]
    show (jsPad2 _ ++ ':' :: (jsPad2 _ ++ ':' :: jsPad2 _)).length = 8
    rw [List.length_append, List.length_cons, List.length_append,
      List.length_cons, jsPad2_length _ (by omega), jsPad2_length _ hm,
      jsPad2_length _ hs]
  · rw [hsec, parse_hms _ _ _ hh hm hs]
    congr 1
    omega

end Sailing
